import Mathlib

/-!
Verification of the okx-tool repository: a shallow embedding of the balance
aggregation, fund routing, withdrawal and batch-loop logic of
`account.py`, `config.py`, `utils.py` and `main.py`, together with theorems
settling the specification's claims.

Python floats are modelled as exact rationals (`Rat`); Python dicts mapping
currency codes to amounts are modelled as insertion-ordered association
lists (`Snapshot`), mirroring CPython dict semantics (assignment to an
existing key updates in place, a new key is appended).  Exchange responses
are supplied by a `World` record, one field per REST endpoint the code
calls; raised Python exceptions are modelled with `Except`.
-/

/-- A Python dict from currency code to available amount. -/
abbrev Snapshot := List (String × Rat)

/-- Lookup `d.get(c)`: value of the first (and, for dicts, only) binding of `c`. -/
def snapLookup (s : Snapshot) (c : String) : Option Rat :=
  match s with
  | [] => none
  | (k, v) :: rest => if k = c then some v else snapLookup rest c

/-- Lookup with default, `d.get(c, 0)`. -/
def snapGetD (s : Snapshot) (c : String) : Rat :=
  (snapLookup s c).getD 0

/-- Assignment `d[c] = v`: update in place when the key exists, append otherwise
(CPython dict assignment semantics). -/
def snapSet (s : Snapshot) (c : String) (v : Rat) : Snapshot :=
  match s with
  | [] => [(c, v)]
  | (k, w) :: rest => if k = c then (k, v) :: rest else (k, w) :: snapSet rest c v

/-- Python truthiness of `d.get(c)`: `None` and `0.0` are falsy. -/
def truthy : Option Rat → Bool
  | none => false
  | some v => v != 0

/-- One step of the accumulation loops in `account.py`
(`if total.get(ccy): total[ccy] += avail_bal else: total[ccy] = avail_bal`). -/
def snapAdd (t : Snapshot) (c : String) (b : Rat) : Snapshot :=
  if truthy (snapLookup t c) then snapSet t c (snapGetD t c + b) else snapSet t c b

/-- Accumulation of a whole snapshot, `for ccy, avail_bal in src.items(): ...`. -/
def snapAccum (t : Snapshot) (src : Snapshot) : Snapshot :=
  src.foldl (fun acc p => snapAdd acc p.1 p.2) t

/-- Sum of all values bound to key `c` in an association list. -/
def keySum (src : Snapshot) (c : String) : Rat :=
  match src with
  | [] => 0
  | (k, v) :: rest => (if k = c then v else 0) + keySum rest c

/-- The keys of an association list are pairwise distinct (true of every
list built from a Python dict). -/
def keysNodup (s : Snapshot) : Prop :=
  (s.map Prod.fst).Nodup

/-- Dict comprehension `{a['ccy']: float(a['availBal']) for a in data}`;
later duplicates overwrite earlier ones. -/
def toSnapshot (l : List (String × Rat)) : Snapshot :=
  l.foldl (fun s p => snapSet s p.1 p.2) []

/-- One row of a balance response (`{'ccy': ..., 'availBal': ...}`). -/
structure Asset where
  ccy : String
  availBal : Rat
deriving Repr, DecidableEq

/-- One row of a `get_account_balance` response's `data` array; the code
reads only its `details` field. -/
structure TradingEntry where
  details : List Asset
deriving Repr, DecidableEq

/-- One row of a `get_subaccount_list` response's `data` array. -/
structure SubRecord where
  subAcct : String
  canTransOut : Bool
deriving Repr, DecidableEq

/-- One row of a `get_tickers` response's `data` array. -/
structure Ticker where
  instId : String
  last : Rat
deriving Repr, DecidableEq

/-- One row of a `get_currencies` response's `data` array; `minFee` is read
with `currency.get('minFee', '')`, hence optional. -/
structure Currency where
  ccy : String
  canDep : Bool
  canWd : Bool
  minFee : Option String
deriving Repr, DecidableEq

/-- One row of a `funds_transfer` response's `data` array. -/
structure TransferRecord where
  transId : String
deriving Repr, DecidableEq

/-- One row of a `withdrawal` response's `data` array; `wdId` is read with
`result[0].get('wdId', '')`, hence optional. -/
structure WdRecord where
  wdId : Option String
deriving Repr, DecidableEq

/-- An exchange response envelope (`{'code': ..., 'msg': ..., 'data': [...]}`). -/
structure OkxResponse (α : Type) where
  code : String
  msg : String
  data : List α
deriving Repr, DecidableEq

/-- Arguments of a `funds_transfer` call.  The SDK defaults used by
`transfer_from_trading` (`type='0'`, no sub-account) are made explicit. -/
structure FTArgs where
  ccy : String
  amt : Rat
  fromAcct : Nat
  toAcct : Nat
  transType : String
  subAcct : Option String
deriving Repr, DecidableEq

/-- Arguments of a `withdrawal` call (`dest=4` is on-chain). -/
structure WdArgs where
  ccy : String
  amt : Rat
  dest : Nat
  toAddr : String
  fee : String
  chain : String
deriving Repr, DecidableEq

/-- A state-changing exchange API call issued during an operation. -/
inductive ApiCall where
  | fundsTransfer (args : FTArgs)
  | withdrawal (args : WdArgs)
deriving Repr, DecidableEq

/-- A raised Python exception, by class and payload: `Exception(msg)`,
`BrokenResponseError(req, resp)`, `AttributeError` (attribute access on
`None`), `IndexError` (subscript on an empty list). -/
inductive PyErr where
  | exc (msg : String)
  | brokenResponse (req : String)
  | attrError
  | indexError
deriving Repr, DecidableEq

/-- The Python class of a raised exception: `BrokenResponseError` is a
class of its own, distinct from the plain `Exception` used for rejected
requests. -/
inductive ErrClass where
  | exception
  | broken
  | attribute
  | index
deriving Repr, DecidableEq

/-- Class of a raised exception. -/
def PyErr.kind : PyErr → ErrClass
  | .exc _ => .exception
  | .brokenResponse _ => .broken
  | .attrError => .attribute
  | .indexError => .index

/-- Message carried by the exception, `str(exp)` (the response payload
interpolated into a `BrokenResponseError` message is abstracted away). -/
def PyErr.message : PyErr → String
  | .exc m => m
  | .brokenResponse req => "There was error during call " ++ req
  | .attrError => "AttributeError"
  | .indexError => "list index out of range"

/-- The exchange side: one field per REST endpoint used by `OkxAccount`,
giving the `data` array for reads (whose envelope code the code never
checks) and the full envelope for transfers and withdrawals (whose code is
checked). -/
structure World where
  subListData : Bool → List SubRecord
  subFundingData : String → String → List Asset
  subTradingData : String → List TradingEntry
  mainFundingData : String → List Asset
  mainTradingData : String → List TradingEntry
  tickersData : List Ticker
  currenciesData : String → List Currency
  fundsTransferResp : FTArgs → OkxResponse TransferRecord
  withdrawalResp : WdArgs → OkxResponse WdRecord

/-- Conversion of a balance `data` array to a dict,
`{asset['ccy']: float(asset['availBal']) for asset in data}`. -/
def assetsToSnapshot (assets : List Asset) : Snapshot :=
  toSnapshot (assets.map fun a => (a.ccy, a.availBal))

/-- Trading details of the first row of a `get_account_balance` response,
the empty dict when the `data` array is empty. -/
def tradingSnapshot (data : List TradingEntry) : Snapshot :=
  match data with
  | [] => []
  | t :: _ => assetsToSnapshot t.details

/-- Embedding of `OkxAccount.get_assets_prices`. -/
def get_assets_prices (w : World) : Snapshot :=
  toSnapshot ((w.tickersData.filter fun t => t.instId.endsWith "USDT").map
    fun t => ((t.instId.splitOn "-").headD "", t.last))

/-- Embedding of `OkxAccount.get_currencies`. -/
def get_currencies (w : World) (ccy : String) (canDeposit canWithdraw : Option Bool) :
    List Currency :=
  let currencies := w.currenciesData ccy
  match canWithdraw, canDeposit with
  | none, none => currencies
  | cw, cd =>
    let c1 := match cw with
      | some b => currencies.filter fun c => c.canWd == b
      | none => currencies
    match cd with
    | some b => c1.filter fun c => c.canDep == b
    | none => c1

/-- Embedding of `OkxAccount.get_sub_list`. -/
def get_sub_list (w : World) (enabled : Bool) (canTransOut : Option Bool) : List String :=
  let subList := w.subListData enabled
  match canTransOut with
  | some b => (subList.filter fun s => s.canTransOut == b).map fun s => s.subAcct
  | none => subList.map fun s => s.subAcct

/-- Result of `get_sub_balance`: the `funding` and `trading` entries of the
returned dict (`trading` is `None` when `only_funding`). -/
structure SubBalance where
  funding : Snapshot
  trading : Option Snapshot
deriving Repr, DecidableEq

/-- Embedding of `OkxAccount.get_sub_balance`. -/
def get_sub_balance (w : World) (subName ccy : String) (onlyFunding : Bool) : SubBalance :=
  let funding := assetsToSnapshot (w.subFundingData subName ccy)
  if onlyFunding then ⟨funding, none⟩
  else ⟨funding, some (tradingSnapshot (w.subTradingData subName))⟩

/-- One iteration of the accumulation loop in `get_all_subs_balance`:
funding first, then `balance.get('trading', {})`.  The `'trading'` key is
always present in the dict built by `get_sub_balance`, so the `.get`
default is never used and the stored value may be `None`; iterating
`None.items()` raises `AttributeError`. -/
def accumSub (t : Snapshot) (b : SubBalance) : Except PyErr Snapshot :=
  let t1 := snapAccum t b.funding
  match b.trading with
  | none => .error .attrError
  | some tr => .ok (snapAccum t1 tr)

/-- Result of `get_all_subs_balance`. -/
structure AllSubsBalances where
  total : Snapshot
  subs : List (String × SubBalance)
deriving Repr, DecidableEq

/-- Embedding of `OkxAccount.get_all_subs_balance`. -/
def get_all_subs_balance (w : World) (enabled : Bool) (canTransOut : Option Bool)
    (ccy : String) (onlyFunding : Bool) : Except PyErr AllSubsBalances :=
  let subList := get_sub_list w enabled canTransOut
  let subs := subList.map fun s => (s, get_sub_balance w s ccy onlyFunding)
  match subs.foldlM (fun t p => accumSub t p.2) ([] : Snapshot) with
  | .error e => .error e
  | .ok total => .ok ⟨total, subs⟩

/-- An entry of the returned `total` dict: a bare float, or the
`{'balance': ..., 'usd': ...}` dict substituted when `usd_eq`. -/
inductive TotalEntry where
  | raw (v : Rat)
  | valued (balance usd : Rat)
deriving Repr, DecidableEq

/-- A `total` dict after `get_total_balances` has finished with it. -/
abbrev TotalMap := List (String × TotalEntry)

/-- The balance component of a total entry. -/
def TotalEntry.bal : TotalEntry → Rat
  | .raw v => v
  | .valued b _ => b

/-- Lookup in the final total map, zero for an absent currency. -/
def totalBal (t : TotalMap) (c : String) : Rat :=
  match t with
  | [] => 0
  | (k, e) :: rest => if k = c then e.bal else totalBal rest c

/-- The final loop of `get_total_balances`: when `usd_eq`, each total entry
is replaced by `{'balance': balance, 'usd': balance * prices.get(asset, 0)}`.
`prices` is `some` exactly when `usd_eq` was requested (on `none` the code
would have thrown before reaching the multiplication). -/
def valuation (usdEq : Bool) (prices : Option Snapshot) (total : Snapshot) : TotalMap :=
  total.map fun p =>
    (p.1,
     if usdEq then TotalEntry.valued p.2 (p.2 * snapGetD (prices.getD []) p.1)
     else TotalEntry.raw p.2)

/-- Totals of the branch that returns before the valuation loop runs:
every entry stays a bare float. -/
def rawTotals (total : Snapshot) : TotalMap :=
  total.map fun p => (p.1, TotalEntry.raw p.2)

/-- Result of `get_total_balances`; `subs` is present only when
`with_sub_accounts` was requested. -/
structure TotalBalances where
  total : TotalMap
  subs : Option (List (String × SubBalance))
  main : SubBalance
deriving Repr, DecidableEq

/-- Straight-line tail of `get_total_balances` after the sub-account
branch: fetch main funding and merge it; then either the `only_funding`
early path (valuation loop, return), or the main trading fetch — empty
`data` returns early with `trading = {}` and no valuation loop — else
merge trading and run the valuation loop. -/
def totalsFromMain (w : World) (ccy : String) (usdEq onlyFunding : Bool)
    (prices : Option Snapshot) (total0 : Snapshot)
    (subs : Option (List (String × SubBalance))) : TotalBalances :=
  let mainFunding := assetsToSnapshot (w.mainFundingData ccy)
  let total1 := snapAccum total0 mainFunding
  if onlyFunding then
    ⟨valuation usdEq prices total1, subs, ⟨mainFunding, none⟩⟩
  else
    match w.mainTradingData ccy with
    | [] => ⟨rawTotals total1, subs, ⟨mainFunding, some []⟩⟩
    | t :: _ =>
      let mainTrading := assetsToSnapshot t.details
      let total2 := snapAccum total1 mainTrading
      ⟨valuation usdEq prices total2, subs, ⟨mainFunding, some mainTrading⟩⟩

/-- Embedding of `OkxAccount.get_total_balances`. -/
def get_total_balances (w : World) (ccy : String)
    (usdEq withSubAccounts subEnabled onlyFunding : Bool) :
    Except PyErr TotalBalances :=
  let prices := if usdEq then some (get_assets_prices w) else none
  if withSubAccounts then
    match get_all_subs_balance w subEnabled none ccy onlyFunding with
    | .error e => .error e
    | .ok r => .ok (totalsFromMain w ccy usdEq onlyFunding prices r.total (some r.subs))
  else
    .ok (totalsFromMain w ccy usdEq onlyFunding prices [] none)

/-- Embedding of `_fetch_trans_id` in `account.py`. -/
def fetch_trans_id (response : Option (OkxResponse TransferRecord)) :
    Except PyErr (Option String) :=
  match response with
  | none => .ok none
  | some resp =>
    if resp.code ≠ "0" then .error (.exc resp.msg)
    else
      match resp.data with
      | [] => .error (.brokenResponse "funds_transfer")
      | t :: _ => .ok (some t.transId)

/-- The `balance` local of `transfer_from_sub`: the empty dict when an
explicit amount was given, otherwise the dict fetched by `get_sub_balance`. -/
inductive BalanceDict where
  | emptyDict
  | fetched (funding : Snapshot) (trading : Option Snapshot)
deriving Repr, DecidableEq

/-- Evaluation of `balance.get('funding', {}).get(ccy, amt)`. -/
def BalanceDict.fundingGet : BalanceDict → String → Option Rat → Option Rat
  | .emptyDict, _, dflt => dflt
  | .fetched f _, c, dflt =>
    match snapLookup f c with
    | some v => some v
    | none => dflt

/-- Evaluation of `balance.get('trading', {}).get(ccy, amt)`: when the
stored `'trading'` value is `None`, attribute access on it raises. -/
def BalanceDict.tradingGet : BalanceDict → String → Option Rat → Except PyErr (Option Rat)
  | .emptyDict, _, dflt => .ok dflt
  | .fetched _ none, _, _ => .error .attrError
  | .fetched _ (some tr), c, dflt =>
    .ok (match snapLookup tr c with
         | some v => some v
         | none => dflt)

/-- The `transfer_from_funding` closure of `transfer_from_sub`: a no-op on
a falsy resolved amount; otherwise it issues `funds_transfer(ccy, bal, 6,
to_account, '2', sub_name)` but, having no return statement, evaluates to
`None` either way — the exchange's response is discarded. -/
def legFromFunding (balance : BalanceDict) (ccy : String) (amt : Option Rat)
    (toAccount : Nat) (subName : String) :
    Option (OkxResponse TransferRecord) × List ApiCall :=
  let fundingBalance := balance.fundingGet ccy amt
  if truthy fundingBalance then
    (none, [.fundsTransfer ⟨ccy, fundingBalance.getD 0, 6, toAccount, "2", some subName⟩])
  else (none, [])

/-- The `transfer_from_trading` closure of `transfer_from_sub`; like the
funding leg it evaluates to `None` even after issuing a call. -/
def legFromTrading (balance : BalanceDict) (ccy : String) (amt : Option Rat)
    (toAccount : Nat) (subName : String) :
    Except PyErr (Option (OkxResponse TransferRecord) × List ApiCall) :=
  match balance.tradingGet ccy amt with
  | .error e => .error e
  | .ok tradingBalance =>
    if truthy tradingBalance then
      .ok (none, [.fundsTransfer ⟨ccy, tradingBalance.getD 0, 18, toAccount, "2", some subName⟩])
    else .ok (none, [])

/-- Return value of `transfer_from_sub`: `None`, one id, or a list of ids. -/
inductive TransferRet where
  | nothing
  | one (id : String)
  | many (ids : List String)
deriving Repr, DecidableEq

/-- Embedding of `OkxAccount.transfer_from_sub`, paired with the list of
transfer calls it issues. -/
def transfer_from_sub (w : World) (subName ccy : String) (amt : Option Rat)
    (fromTrading : Option Bool) (toTrading : Bool) :
    Except PyErr TransferRet × List ApiCall :=
  let toAccount : Nat := if toTrading then 18 else 6
  let balance : BalanceDict :=
    match amt with
    | some _ => .emptyDict
    | none =>
      match fromTrading with
      | some false =>
        let b := get_sub_balance w subName ccy true
        .fetched b.funding b.trading
      | _ =>
        let b := get_sub_balance w subName ccy false
        .fetched b.funding b.trading
  match fromTrading with
  | none =>
    let (respF, callsF) := legFromFunding balance ccy amt toAccount subName
    match fetch_trans_id respF with
    | .error e => (.error e, callsF)
    | .ok idF =>
      match legFromTrading balance ccy amt toAccount subName with
      | .error e => (.error e, callsF)
      | .ok (respT, callsT) =>
        match fetch_trans_id respT with
        | .error e => (.error e, callsF ++ callsT)
        | .ok idT =>
          match idF, idT with
          | none, none => (.ok .nothing, callsF ++ callsT)
          | some i, none => (.ok (.many [i]), callsF ++ callsT)
          | none, some j => (.ok (.many [j]), callsF ++ callsT)
          | some i, some j => (.ok (.many [i, j]), callsF ++ callsT)
  | some true =>
    match legFromTrading balance ccy amt toAccount subName with
    | .error e => (.error e, [])
    | .ok (respT, callsT) =>
      match fetch_trans_id respT with
      | .error e => (.error e, callsT)
      | .ok none => (.ok .nothing, callsT)
      | .ok (some i) => (.ok (.one i), callsT)
  | some false =>
    let (respF, callsF) := legFromFunding balance ccy amt toAccount subName
    match fetch_trans_id respF with
    | .error e => (.error e, callsF)
    | .ok none => (.ok .nothing, callsF)
    | .ok (some i) => (.ok (.one i), callsF)

/-- Embedding of `OkxAccount.transfer_from_trading`, paired with the list
of transfer calls it issues. -/
def transfer_from_trading (w : World) (ccy : String) (amt : Option Rat) :
    Except PyErr (Option String) × List ApiCall :=
  let resolved : Option Rat :=
    match amt with
    | some a => some a
    | none =>
      match w.mainTradingData ccy with
      | [] => none
      | t :: _ => some (snapGetD (assetsToSnapshot t.details) ccy)
  match resolved with
  | none => (.ok none, [])
  | some a =>
    if a = 0 then (.ok none, [])
    else
      let args : FTArgs := ⟨ccy, a, 18, 6, "0", none⟩
      match fetch_trans_id (some (w.fundsTransferResp args)) with
      | .error e => (.error e, [.fundsTransfer args])
      | .ok r => (.ok r, [.fundsTransfer args])

/-- Embedding of `OkxAccount.withdraw`, paired with the list of withdrawal
calls it issues. -/
def withdraw (w : World) (addr ccy chain : String) (amt : Option Rat)
    (minFee : Option String) : Except PyErr String × List ApiCall :=
  let feeRes : Except PyErr String :=
    match minFee with
    | some f => .ok f
    | none =>
      match get_currencies w ccy (some true) (some true) with
      | [] => .error .indexError
      | cur :: _ => .ok (cur.minFee.getD "")
  match feeRes with
  | .error e => (.error e, [])
  | .ok fee =>
    let amtVal : Rat :=
      match amt with
      | some a => a
      | none => snapGetD (assetsToSnapshot (w.mainFundingData ccy)) ccy
    let args : WdArgs := ⟨ccy, amtVal, 4, addr, fee, ccy ++ "-" ++ chain⟩
    let result := w.withdrawalResp args
    if result.code ≠ "0" then (.error (.exc result.msg), [.withdrawal args])
    else
      match result.data with
      | [] => (.error (.exc "No withdraw"), [.withdrawal args])
      | r0 :: _ => (.ok (r0.wdId.getD ""), [.withdrawal args])

/-- Amounts or delays as written in the YAML config: a scalar or a list. -/
inductive RawRange (α : Type) where
  | scalar (x : α)
  | listed (xs : List α)
deriving Repr, DecidableEq

/-- Normalisation of the `amounts` key in `read_config`:
`if type(amounts) is not list: amounts = [float(amounts), float(amounts)]`. -/
def normalizeAmounts : RawRange Rat → List Rat
  | .scalar x => [x, x]
  | .listed xs => xs

/-- Normalisation of the `delays` key in `read_config`:
`if type(delays) is not list: delays = [int(delays), int(delays)]`. -/
def normalizeDelays : RawRange Int → List Int
  | .scalar x => [x, x]
  | .listed xs => xs

/-- Model of `random.uniform(a, b)`: `a + (b - a) * r` for a seed
`r` drawn from `[0, 1]`. -/
def randomUniform (a b r : Rat) : Rat := a + (b - a) * r

/-- Model of `random.randint(a, b)`: `a + (seed mod (b - a + 1))`, inclusive
at both ends. -/
def randomRandint (a b : Int) (seed : Nat) : Int := a + (seed : Int) % (b - a + 1)

/-- The `amounts` and `delays` fields of `OkxConfig` (the credential and
flag fields play no part in the randomized draws). -/
structure OkxConfig where
  amounts : List Rat
  delays : List Int
deriving Repr, DecidableEq

/-- Embedding of `OkxConfig.amount`:
`random.uniform(self.amounts[0], self.amounts[1])`. -/
def OkxConfig.amount (c : OkxConfig) (r : Rat) : Rat :=
  randomUniform (c.amounts.getD 0 0) (c.amounts.getD 1 0) r

/-- Embedding of `OkxConfig.delay`:
`random.randint(self.delays[0], self.delays[1])`. -/
def OkxConfig.delay (c : OkxConfig) (seed : Nat) : Int :=
  randomRandint (c.delays.getD 0 0) (c.delays.getD 1 0) seed

/-- Model of `str.strip()`: drop ASCII whitespace from both ends. -/
def pyStrip (s : String) : String :=
  ⟨((s.data.dropWhile Char.isWhitespace).reverse.dropWhile Char.isWhitespace).reverse⟩

/-- Left-to-right removal of every non-overlapping occurrence of `0x`,
the effect of `str.replace('0x', '')`. -/
def removeAll0xAux : List Char → List Char
  | '0' :: 'x' :: rest => removeAll0xAux rest
  | c :: rest => c :: removeAll0xAux rest
  | [] => []

/-- Model of `pk.replace('0x', '')`. -/
def removeAll0x (s : String) : String := ⟨removeAll0xAux s.data⟩

/-- Embedding of `utils.load_private_keys` on the lines of the file. -/
def load_private_keys (lines : List String) : List String :=
  (lines.map fun pk => removeAll0x (pyStrip pk)).filter fun s => s.length == 64

/-- Embedding of `utils.load_addresses` on the lines of the file. -/
def load_addresses (lines : List String) : List String :=
  (lines.map pyStrip).filter fun s => s.length == 42

/-- A hexadecimal digit, as the specification's wording requires. -/
def isHexChar (c : Char) : Bool :=
  c.isDigit || (('a' ≤ c) && (c ≤ 'f')) || (('A' ≤ c) && (c ≤ 'F'))

/-- Removal of one optional leading `0x` (contrast with `removeAll0x`,
which the code applies everywhere in the line). -/
def dropLeading0x (s : String) : String :=
  match s.data with
  | '0' :: 'x' :: rest => ⟨rest⟩
  | _ => s

/-- Acceptance condition for a private-key line exactly as the
specification words it: after stripping an optional `0x` prefix, exactly
64 hex characters remain. -/
def specPkAccept (line : String) : Bool :=
  let s := dropLeading0x (pyStrip line)
  s.length == 64 && s.data.all isHexChar

/-- Trace events of the batch-withdrawal loop in `main.withdraw`. -/
inductive WdEvent where
  | attempt (wallet : String)
  | succeeded (wallet transId : String)
  | slept (delay : Int)
  | failedSkipped (wallet msg : String)
deriving Repr, DecidableEq

/-- One iteration of the batch loop: the withdrawal is attempted inside
`try`; on success the request is logged and `time.sleep(delay)` runs; on
an exception the failure is logged and the loop continues with the next
address. -/
def withdrawStep (outcome : String → Except PyErr String) (delayOf : String → Int)
    (wallet : String) : List WdEvent :=
  WdEvent.attempt wallet ::
    match outcome wallet with
    | .ok transId => [.succeeded wallet transId, .slept (delayOf wallet)]
    | .error e => [.failedSkipped wallet e.message]

/-- The `for wallet in addresses` loop of `main.withdraw`. -/
def withdrawLoop (outcome : String → Except PyErr String) (delayOf : String → Int) :
    List String → List WdEvent
  | [] => []
  | wlt :: rest => withdrawStep outcome delayOf wlt ++ withdrawLoop outcome delayOf rest

/-- Wallets for which a withdrawal was attempted, in trace order. -/
def attemptsOf (tr : List WdEvent) : List String :=
  tr.filterMap fun e =>
    match e with
    | .attempt wlt => some wlt
    | _ => none

/-- Discipline check on a trace: every success is immediately followed by a
sleep, and every sleep is immediately preceded by a success. -/
def delayDiscipline : List WdEvent → Bool
  | [] => true
  | .succeeded _ _ :: .slept _ :: rest => delayDiscipline rest
  | .succeeded _ _ :: _ => false
  | .slept _ :: _ => false
  | _ :: rest => delayDiscipline rest

/-- Per-currency contribution of one sub-account's fetched balances
(an absent currency or an unfetched ledger contributes zero). -/
def SubBalance.contrib (b : SubBalance) (c : String) : Rat :=
  snapGetD b.funding c +
    (match b.trading with
     | some tr => snapGetD tr c
     | none => 0)

/-- Sum of per-sub-account contributions for one currency. -/
def contribSum (l : List SubBalance) (c : String) : Rat :=
  match l with
  | [] => 0
  | b :: rest => b.contrib c + contribSum rest c

/-- Same sum expressed with `keySum` (used before key-uniqueness of the
fetched snapshots is brought in). -/
def keyContribSum (l : List SubBalance) (c : String) : Rat :=
  match l with
  | [] => 0
  | b :: rest =>
    keySum b.funding c +
      (match b.trading with
       | some tr => keySum tr c
       | none => 0) + keyContribSum rest c

/-- A world with no sub-accounts, no balances and successful one-record
responses, used as the base of the concrete test worlds below. -/
def emptyWorld : World where
  subListData := fun _ => []
  subFundingData := fun _ _ => []
  subTradingData := fun _ => []
  mainFundingData := fun _ => []
  mainTradingData := fun _ => []
  tickersData := []
  currenciesData := fun _ => []
  fundsTransferResp := fun _ => ⟨"0", "", [⟨"t1"⟩]⟩
  withdrawalResp := fun _ => ⟨"0", "", [⟨some "wd1"⟩]⟩

/-- World for the C1 witness: one sub-account, each currency held in
exactly one ledger. -/
def c1World : World :=
  { emptyWorld with
    subListData := fun _ => [⟨"s1", true⟩]
    subFundingData := fun _ _ => [⟨"AAA", 5⟩]
    subTradingData := fun _ => [⟨[⟨"BBB", 2⟩]⟩]
    mainFundingData := fun _ => [⟨"CCC", 3⟩]
    mainTradingData := fun _ => [⟨[⟨"DDD", 4⟩]⟩] }

/-- The value `get_total_balances c1World '' false true true false` returns. -/
def c1Result : TotalBalances :=
  ⟨[("AAA", TotalEntry.raw 5), ("BBB", TotalEntry.raw 2),
    ("CCC", TotalEntry.raw 3), ("DDD", TotalEntry.raw 4)],
   some [("s1", ⟨[("AAA", 5)], some [("BBB", 2)]⟩)],
   ⟨[("CCC", 3)], some [("DDD", 4)]⟩⟩

/-- World for the C2 counterexample: the withdrawal endpoint answers with a
success code but an empty records array. -/
def c2World : World :=
  { emptyWorld with withdrawalResp := fun _ => ⟨"0", "", []⟩ }

/-- World for the C2 amended witness: both the transfer and the withdrawal
endpoints answer with a success code but an empty records array. -/
def c2bWorld : World :=
  { emptyWorld with
    fundsTransferResp := fun _ => ⟨"0", "", []⟩
    withdrawalResp := fun _ => ⟨"0", "", []⟩ }

/-- World for the C3 failing input: the sub-account holds 50 USDT on
funding and 0 USDT on trading. -/
def c3World : World :=
  { emptyWorld with
    subFundingData := fun _ _ => [⟨"USDT", 50⟩]
    subTradingData := fun _ => [⟨[⟨"USDT", 0⟩]⟩] }

/-- World for the C5 witness: one withdraw- and deposit-enabled currency
with a minimum fee, and a funding balance. -/
def c5World : World :=
  { emptyWorld with
    currenciesData := fun _ => [⟨"USDT", true, true, some "0.05"⟩]
    mainFundingData := fun _ => [⟨"USDT", 7⟩] }

/-- World for the C6 counterexample: a funding balance exists but the main
trading fetch returns an empty data array. -/
def c6World : World :=
  { emptyWorld with
    mainFundingData := fun _ => [⟨"BTC", 1⟩]
    mainTradingData := fun _ => [] }

/-- World for the C6 amended witness: a funding balance, queried in
funding-only mode. -/
def c6bWorld : World :=
  { emptyWorld with mainFundingData := fun _ => [⟨"BTC", 1⟩] }

/-- The value `get_total_balances c6bWorld '' true false true true` returns. -/
def c6bResult : TotalBalances :=
  ⟨[("BTC", TotalEntry.valued 1 ((1 : Rat) * 0))], none, ⟨[("BTC", 1)], none⟩⟩

/-- The total entry of `c6bResult`. -/
def c6bEntry : String × TotalEntry := ("BTC", TotalEntry.valued 1 ((1 : Rat) * 0))

/-- Outcome function for the C7 witness: the first wallet fails, the
second succeeds. -/
def c7Outcome : String → Except PyErr String := fun wlt =>
  if wlt = "w1" then Except.error (PyErr.exc "boom") else Except.ok "id1"

/-- Delay draw for the C7 witness. -/
def c7Delay : String → Int := fun _ => 3

/-- A 64-character non-hexadecimal line for the C9 counterexample. -/
def zKey : String :=
  "zzzzzzzzzzzzzzzzzzzzzzzzzzzzzzzzzzzzzzzzzzzzzzzzzzzzzzzzzzzzzzzz"

theorem snapLookup_snapSet (s : Snapshot) (c : String) (v : Rat) (x : String) :
    snapLookup (snapSet s c v) x = if x = c then some v else snapLookup s x := by
  induction s with
  | nil =>
    by_cases hx : x = c
    · subst hx; simp [snapSet, snapLookup]
    · have hcx : ¬ c = x := fun h => hx h.symm
      simp [snapSet, snapLookup, hx, hcx]
  | cons p rest ih =>
    obtain ⟨k, w⟩ := p
    by_cases hk : k = c
    · subst hk
      by_cases hx : k = x
      · subst hx
        simp [snapSet, snapLookup]
      · have hxk : ¬ x = k := fun h => hx h.symm
        simp [snapSet, snapLookup, hx, hxk]
    · by_cases hx : k = x
      · subst hx
        have hxc : ¬ k = c := hk
        simp [snapSet, snapLookup, hk, hxc]
      · simp [snapSet, snapLookup, hk, hx, ih]

theorem snapGetD_snapAdd (t : Snapshot) (c : String) (b : Rat) (x : String) :
    snapGetD (snapAdd t c b) x = snapGetD t x + (if x = c then b else 0) := by
  unfold snapAdd
  by_cases ht : truthy (snapLookup t c)
  · simp only [ht, if_true, snapGetD, snapLookup_snapSet]
    by_cases hx : x = c
    · subst hx; simp [snapGetD]
    · simp [hx]
  · simp only [ht, if_false, Bool.false_eq_true, snapGetD, snapLookup_snapSet]
    by_cases hx : x = c
    · subst hx
      have hz : (snapLookup t x).getD 0 = 0 := by
        unfold truthy at ht
        match h : snapLookup t x with
        | none => simp
        | some v =>
          rw [h] at ht
          simp only [bne_iff_ne, ne_eq, Decidable.not_not] at ht
          simp [ht]
      simp [hz]
    · simp [hx]

theorem snapGetD_snapAccum (src : Snapshot) (t : Snapshot) (x : String) :
    snapGetD (snapAccum t src) x = snapGetD t x + keySum src x := by
  induction src generalizing t with
  | nil => simp [snapAccum, keySum]
  | cons p rest ih =>
    obtain ⟨k, v⟩ := p
    simp only [snapAccum, List.foldl_cons, keySum]
    have := ih (snapAdd t k v)
    simp only [snapAccum] at this
    rw [this, snapGetD_snapAdd]
    by_cases hx : x = k
    · subst hx
      simp only [if_pos rfl]
      ring
    · have hkx : ¬ k = x := fun h => hx h.symm
      simp [hx, hkx]

theorem keySum_eq_zero_of_not_mem (s : Snapshot) (c : String)
    (h : c ∉ s.map Prod.fst) : keySum s c = 0 := by
  induction s with
  | nil => simp [keySum]
  | cons p rest ih =>
    obtain ⟨k, v⟩ := p
    simp only [List.map_cons, List.mem_cons, not_or] at h
    simp only [keySum]
    have hk : ¬ k = c := fun hh => h.1 hh.symm
    rw [if_neg hk, ih h.2, add_zero]

theorem keySum_eq_snapGetD (s : Snapshot) (c : String) (h : keysNodup s) :
    keySum s c = snapGetD s c := by
  induction s with
  | nil => simp [keySum, snapGetD, snapLookup]
  | cons p rest ih =>
    obtain ⟨k, v⟩ := p
    simp only [keysNodup, List.map_cons, List.nodup_cons] at h
    simp only [keySum, snapGetD, snapLookup]
    by_cases hk : k = c
    · subst hk
      rw [if_pos rfl, if_pos rfl, keySum_eq_zero_of_not_mem rest k h.1]
      simp
    · rw [if_neg hk, if_neg hk, ih h.2, snapGetD, zero_add]

theorem mem_keys_snapSet (s : Snapshot) (c : String) (v : Rat) (x : String) :
    x ∈ (snapSet s c v).map Prod.fst → x ∈ s.map Prod.fst ∨ x = c := by
  induction s with
  | nil =>
    intro hx
    simp only [snapSet, List.map_cons, List.map_nil, List.mem_singleton] at hx
    exact Or.inr hx
  | cons p rest ih =>
    obtain ⟨k, w⟩ := p
    by_cases hk : k = c
    · subst hk
      have hset : snapSet ((k, w) :: rest) k v = (k, v) :: rest := by simp [snapSet]
      rw [hset]
      simp only [List.map_cons, List.mem_cons]
      exact fun hx => Or.inl hx
    · simp only [snapSet, if_neg hk, List.map_cons, List.mem_cons]
      intro hx
      rcases hx with hx | hx
      · exact Or.inl (Or.inl hx)
      · rcases ih hx with h1 | h1
        · exact Or.inl (Or.inr h1)
        · exact Or.inr h1

theorem keysNodup_snapSet (s : Snapshot) (c : String) (v : Rat)
    (h : keysNodup s) : keysNodup (snapSet s c v) := by
  induction s with
  | nil => simp [keysNodup, snapSet]
  | cons p rest ih =>
    obtain ⟨k, w⟩ := p
    simp only [keysNodup, List.map_cons, List.nodup_cons] at h
    by_cases hk : k = c
    · subst hk
      have hset : snapSet ((k, w) :: rest) k v = (k, v) :: rest := by simp [snapSet]
      rw [keysNodup, hset]
      simp only [List.map_cons, List.nodup_cons]
      exact ⟨h.1, h.2⟩
    · simp only [keysNodup, snapSet, if_neg hk, List.map_cons, List.nodup_cons]
      refine ⟨?_, ih h.2⟩
      intro hmem
      rcases mem_keys_snapSet rest c v k hmem with h1 | h1
      · exact h.1 h1
      · exact hk h1

theorem keysNodup_toSnapshot (l : List (String × Rat)) : keysNodup (toSnapshot l) := by
  have general : ∀ (l : List (String × Rat)) (s : Snapshot), keysNodup s →
      keysNodup (l.foldl (fun s p => snapSet s p.1 p.2) s) := by
    intro l
    induction l with
    | nil => intro s hs; simpa using hs
    | cons p rest ih =>
      intro s hs
      simp only [List.foldl_cons]
      exact ih _ (keysNodup_snapSet s p.1 p.2 hs)
  exact general l [] (by simp [keysNodup])

theorem snapGetD_snapAccum_nodup (src : Snapshot) (t : Snapshot) (x : String)
    (h : keysNodup src) :
    snapGetD (snapAccum t src) x = snapGetD t x + snapGetD src x := by
  rw [snapGetD_snapAccum, keySum_eq_snapGetD src x h]

theorem truthy_false_iff (o : Option Rat) :
    truthy o = false ↔ o.getD 0 = 0 := by
  match o with
  | none => simp [truthy]
  | some v => simp [truthy]

theorem snapGetD_cons (k : String) (v : Rat) (rest : Snapshot) (c : String) :
    snapGetD ((k, v) :: rest) c = if k = c then v else snapGetD rest c := by
  by_cases hk : k = c <;> simp [snapGetD, snapLookup, hk]

theorem keysNodup_assetsToSnapshot (l : List Asset) : keysNodup (assetsToSnapshot l) :=
  keysNodup_toSnapshot _

theorem keysNodup_tradingSnapshot (data : List TradingEntry) :
    keysNodup (tradingSnapshot data) := by
  cases data with
  | nil => simp [tradingSnapshot, keysNodup]
  | cons t rest => exact keysNodup_assetsToSnapshot t.details

theorem snapGetD_snapAccum_assets (l : List Asset) (t : Snapshot) (x : String) :
    snapGetD (snapAccum t (assetsToSnapshot l)) x =
      snapGetD t x + snapGetD (assetsToSnapshot l) x :=
  snapGetD_snapAccum_nodup _ _ _ (keysNodup_assetsToSnapshot l)

theorem totalBal_entryMap (f : String × Rat → TotalEntry) (hf : ∀ p, (f p).bal = p.2)
    (total : Snapshot) (c : String) :
    totalBal (total.map fun p => (p.1, f p)) c = snapGetD total c := by
  induction total with
  | nil => simp [totalBal, snapGetD, snapLookup]
  | cons p rest ih =>
    obtain ⟨k, v⟩ := p
    rw [List.map_cons, snapGetD_cons]
    by_cases hk : k = c
    · subst hk
      simp only [totalBal]
      rw [if_pos trivial, if_pos trivial]
      exact hf _
    · simp [totalBal, hk, ih]

theorem totalBal_valuation (usdEq : Bool) (prices : Option Snapshot)
    (total : Snapshot) (c : String) :
    totalBal (valuation usdEq prices total) c = snapGetD total c := by
  unfold valuation
  exact totalBal_entryMap
    (fun p => if usdEq then TotalEntry.valued p.2 (p.2 * snapGetD (prices.getD []) p.1)
              else TotalEntry.raw p.2)
    (fun p => by cases usdEq <;> simp [TotalEntry.bal]) total c

theorem totalBal_rawTotals (total : Snapshot) (c : String) :
    totalBal (rawTotals total) c = snapGetD total c :=
  totalBal_entryMap (fun p => TotalEntry.raw p.2) (fun _ => rfl) total c

theorem valuation_true_mem (prices : Option Snapshot) (total : Snapshot)
    (p : String × TotalEntry) (h : p ∈ valuation true prices total) :
    p.2 = TotalEntry.valued p.2.bal (p.2.bal * snapGetD (prices.getD []) p.1) := by
  unfold valuation at h
  obtain ⟨q, hq, rfl⟩ := List.mem_map.1 h
  simp [TotalEntry.bal]

theorem valuation_false_mem (prices : Option Snapshot) (total : Snapshot)
    (p : String × TotalEntry) (h : p ∈ valuation false prices total) :
    p.2 = TotalEntry.raw p.2.bal := by
  unfold valuation at h
  obtain ⟨q, hq, rfl⟩ := List.mem_map.1 h
  simp [TotalEntry.bal]

theorem rawTotals_mem (total : Snapshot) (p : String × TotalEntry)
    (h : p ∈ rawTotals total) : p.2 = TotalEntry.raw p.2.bal := by
  unfold rawTotals at h
  obtain ⟨q, hq, rfl⟩ := List.mem_map.1 h
  simp [TotalEntry.bal]

theorem foldlM_accumSub_ok (c : String) (l : List (String × SubBalance)) :
    ∀ (t total : Snapshot),
      List.foldlM (fun t p => accumSub t p.2) t l = Except.ok total →
      snapGetD total c = snapGetD t c + keyContribSum (l.map Prod.snd) c := by
  induction l with
  | nil =>
    intro t total h
    simp only [List.foldlM_nil] at h
    have h2 : (Except.ok t : Except PyErr Snapshot) = Except.ok total := h
    cases h2
    simp [keyContribSum]
  | cons p rest ih =>
    intro t total h
    simp only [List.foldlM_cons] at h
    cases haccum : accumSub t p.2 with
    | error e =>
      rw [haccum] at h
      simp [Bind.bind, Except.bind] at h
    | ok t1 =>
      rw [haccum] at h
      simp only [Bind.bind, Except.bind] at h
      have hstep := ih t1 total h
      unfold accumSub at haccum
      cases htr : p.2.trading with
      | none => rw [htr] at haccum; cases haccum
      | some tr =>
        rw [htr] at haccum
        have ht1 : t1 = snapAccum (snapAccum t p.2.funding) tr := by
          cases haccum; rfl
        subst ht1
        rw [hstep, snapGetD_snapAccum, snapGetD_snapAccum]
        simp only [List.map_cons, keyContribSum, htr]
        ring

theorem keyContribSum_eq_contribSum (l : List SubBalance) (c : String)
    (h : ∀ b ∈ l, keysNodup b.funding ∧ ∀ tr, b.trading = some tr → keysNodup tr) :
    keyContribSum l c = contribSum l c := by
  induction l with
  | nil => simp [keyContribSum, contribSum]
  | cons b rest ih =>
    have hb := h b (List.mem_cons_self b rest)
    have hrest : ∀ x ∈ rest, keysNodup x.funding ∧
        ∀ tr, x.trading = some tr → keysNodup tr :=
      fun x hx => h x (List.mem_cons_of_mem b hx)
    simp only [keyContribSum, contribSum, SubBalance.contrib]
    rw [keySum_eq_snapGetD _ _ hb.1, ih hrest]
    cases htr : b.trading with
    | none => rfl
    | some tr =>
      show snapGetD b.funding c + keySum tr c + contribSum rest c =
        snapGetD b.funding c + snapGetD tr c + contribSum rest c
      rw [keySum_eq_snapGetD _ _ (hb.2 tr htr)]

theorem get_sub_balance_nodup (w : World) (subName ccy : String) (onlyFunding : Bool) :
    keysNodup (get_sub_balance w subName ccy onlyFunding).funding ∧
      ∀ tr, (get_sub_balance w subName ccy onlyFunding).trading = some tr →
        keysNodup tr := by
  cases onlyFunding with
  | true =>
    refine ⟨keysNodup_assetsToSnapshot _, ?_⟩
    intro tr htr
    simp [get_sub_balance] at htr
  | false =>
    refine ⟨keysNodup_assetsToSnapshot _, ?_⟩
    intro tr htr
    simp only [get_sub_balance, if_neg (by simp : ¬ (false = true))] at htr
    have : tr = tradingSnapshot (w.subTradingData subName) := by
      cases htr; rfl
    subst this
    exact keysNodup_tradingSnapshot _

theorem get_all_subs_balance_ok (w : World) (enabled : Bool) (cto : Option Bool)
    (ccy : String) (onlyF : Bool) (r : AllSubsBalances)
    (h : get_all_subs_balance w enabled cto ccy onlyF = Except.ok r) (c : String) :
    snapGetD r.total c =
      contribSum ((get_sub_list w enabled cto).map fun s =>
        get_sub_balance w s ccy onlyF) c ∧
    r.subs = (get_sub_list w enabled cto).map fun s =>
      (s, get_sub_balance w s ccy onlyF) := by
  simp only [get_all_subs_balance] at h
  cases hfold : List.foldlM (fun t p => accumSub t p.2) ([] : Snapshot)
      ((get_sub_list w enabled cto).map fun s => (s, get_sub_balance w s ccy onlyF)) with
  | error e =>
    rw [hfold] at h
    cases h
  | ok total =>
    rw [hfold] at h
    cases h
    refine ⟨?_, rfl⟩
    have hstep := foldlM_accumSub_ok c _ _ _ hfold
    have hmaps : (((get_sub_list w enabled cto).map fun s =>
        (s, get_sub_balance w s ccy onlyF)).map Prod.snd) =
        (get_sub_list w enabled cto).map fun s => get_sub_balance w s ccy onlyF := by
      rw [List.map_map]
      rfl
    rw [hmaps] at hstep
    have hnodups : ∀ b ∈ (get_sub_list w enabled cto).map
        (fun s => get_sub_balance w s ccy onlyF),
        keysNodup b.funding ∧ ∀ tr, b.trading = some tr → keysNodup tr := by
      intro b hb
      obtain ⟨s, hs, rfl⟩ := List.mem_map.1 hb
      exact get_sub_balance_nodup w s ccy onlyF
    show snapGetD total c = _
    rw [hstep, keyContribSum_eq_contribSum _ _ hnodups]
    simp [snapGetD, snapLookup]

theorem totalsFromMain_totalBal (w : World) (ccy : String) (usdEq onlyF : Bool)
    (prices : Option Snapshot) (total0 : Snapshot)
    (subs : Option (List (String × SubBalance))) (c : String) :
    totalBal (totalsFromMain w ccy usdEq onlyF prices total0 subs).total c =
      snapGetD total0 c + snapGetD (assetsToSnapshot (w.mainFundingData ccy)) c
      + (if onlyF then 0 else snapGetD (tradingSnapshot (w.mainTradingData ccy)) c) := by
  cases onlyF with
  | true =>
    show totalBal (valuation usdEq prices
        (snapAccum total0 (assetsToSnapshot (w.mainFundingData ccy)))) c =
      snapGetD total0 c + snapGetD (assetsToSnapshot (w.mainFundingData ccy)) c + 0
    rw [totalBal_valuation, snapGetD_snapAccum_assets, add_zero]
  | false =>
    unfold totalsFromMain
    generalize hmt : w.mainTradingData ccy = mt
    cases mt with
    | nil =>
      show totalBal (rawTotals
          (snapAccum total0 (assetsToSnapshot (w.mainFundingData ccy)))) c =
        snapGetD total0 c + snapGetD (assetsToSnapshot (w.mainFundingData ccy)) c + 0
      rw [totalBal_rawTotals, snapGetD_snapAccum_assets, add_zero]
    | cons t rest =>
      show totalBal (valuation usdEq prices
          (snapAccum (snapAccum total0 (assetsToSnapshot (w.mainFundingData ccy)))
            (assetsToSnapshot t.details))) c =
        snapGetD total0 c + snapGetD (assetsToSnapshot (w.mainFundingData ccy)) c
          + snapGetD (assetsToSnapshot t.details) c
      rw [totalBal_valuation,
        snapGetD_snapAccum_nodup (assetsToSnapshot t.details) _ _
          (keysNodup_assetsToSnapshot t.details),
        snapGetD_snapAccum_assets]

/-- C1: for every result of `get_total_balances` and every currency, the
aggregate total equals the main funding balance plus the main trading
balance plus the sum over all fetched sub-accounts of their funding and
trading balances for that currency; a currency absent from a snapshot
contributes zero, and ledgers that are not fetched (trading in
only-funding mode, subs when excluded) contribute nothing. -/
theorem c1_total_balances_sum (w : World) (ccyQ : String)
    (usdEq withSub subEnabled onlyFunding : Bool) (r : TotalBalances)
    (h : get_total_balances w ccyQ usdEq withSub subEnabled onlyFunding = Except.ok r)
    (ccy : String) :
    totalBal r.total ccy =
      snapGetD (assetsToSnapshot (w.mainFundingData ccyQ)) ccy
      + (if onlyFunding then 0
         else snapGetD (tradingSnapshot (w.mainTradingData ccyQ)) ccy)
      + (if withSub then
           contribSum ((get_sub_list w subEnabled none).map fun s =>
             get_sub_balance w s ccyQ onlyFunding) ccy
         else 0) := by
  simp only [get_total_balances] at h
  by_cases hws : withSub = true
  · rw [if_pos hws] at h
    cases hall : get_all_subs_balance w subEnabled none ccyQ onlyFunding with
    | error e =>
      rw [hall] at h
      cases h
    | ok rs =>
      rw [hall] at h
      have h2 : Except.ok (totalsFromMain w ccyQ usdEq onlyFunding
          (if usdEq then some (get_assets_prices w) else none) rs.total (some rs.subs)) =
          Except.ok r := h
      cases h2
      rw [totalsFromMain_totalBal,
        (get_all_subs_balance_ok w subEnabled none ccyQ onlyFunding rs hall ccy).1,
        if_pos hws]
      ring
  · rw [if_neg hws] at h
    have h2 : Except.ok (totalsFromMain w ccyQ usdEq onlyFunding
        (if usdEq then some (get_assets_prices w) else none) [] none) =
        Except.ok r := h
    cases h2
    rw [totalsFromMain_totalBal, if_neg hws]
    simp [snapGetD, snapLookup]

/-- Witness: `c1_total_balances_sum` instantiated on the concrete world
`c1World` with its concrete result. -/
theorem c1_total_balances_sum_witness :
    totalBal c1Result.total "AAA" =
      snapGetD (assetsToSnapshot (c1World.mainFundingData "")) "AAA"
      + (if false then 0
         else snapGetD (tradingSnapshot (c1World.mainTradingData "")) "AAA")
      + (if true then
           contribSum ((get_sub_list c1World true none).map fun s =>
             get_sub_balance c1World s "" false) "AAA"
         else 0) :=
  c1_total_balances_sum c1World "" false true true false c1Result rfl "AAA"

theorem truthy_match_lookup (s : Snapshot) (c : String) (h : snapGetD s c = 0) :
    truthy (match snapLookup s c with
            | some v => some v
            | none => (none : Option Rat)) = false := by
  cases hl : snapLookup s c with
  | none => rfl
  | some v =>
    have hv : v = 0 := by simpa [snapGetD, hl] using h
    simp [truthy, hv]

/-- C2 counterexample: on a success response with an empty records array,
`withdraw` raises the plain generic `Exception('No withdraw')` — an error
of the same class as the rejected-request error — and not the distinct
`BrokenResponseError` kind. -/
theorem c2_withdraw_generic_kind_counterexample :
    (withdraw c2World "0xabc" "USDT" "ERC20" (some 1) (some "0.1")).1 =
      Except.error (PyErr.exc "No withdraw")
    ∧ PyErr.kind (PyErr.exc "No withdraw") =
        PyErr.kind (PyErr.exc "Insufficient balance") :=
  ⟨rfl, rfl⟩

/-- C2 amended: the shared transfer extractor raises `BrokenResponseError`
(a class distinct from the generic one) on a success response with empty
records, and `transfer_from_trading` propagates it; `withdraw` instead
raises a plain `Exception` with the fixed message `No withdraw`, of the
same class as the rejected-request error; `transfer_from_sub` raises
neither because its leg closures discard the exchange's responses. -/
theorem c2_broken_response_amended :
    (∀ resp : OkxResponse TransferRecord, resp.code = "0" → resp.data = [] →
       fetch_trans_id (some resp) =
         Except.error (PyErr.brokenResponse "funds_transfer")
       ∧ PyErr.kind (PyErr.brokenResponse "funds_transfer") ≠
           PyErr.kind (PyErr.exc resp.msg))
  ∧ (∀ (w : World) (ccy : String) (a : Rat), a ≠ 0 →
       (w.fundsTransferResp ⟨ccy, a, 18, 6, "0", none⟩).code = "0" →
       (w.fundsTransferResp ⟨ccy, a, 18, 6, "0", none⟩).data = [] →
       (transfer_from_trading w ccy (some a)).1 =
         Except.error (PyErr.brokenResponse "funds_transfer"))
  ∧ (∀ (w : World) (addr ccy chain f : String) (a : Rat),
       (w.withdrawalResp ⟨ccy, a, 4, addr, f, ccy ++ "-" ++ chain⟩).code = "0" →
       (w.withdrawalResp ⟨ccy, a, 4, addr, f, ccy ++ "-" ++ chain⟩).data = [] →
       (withdraw w addr ccy chain (some a) (some f)).1 =
         Except.error (PyErr.exc "No withdraw")
       ∧ PyErr.kind (PyErr.exc "No withdraw") = ErrClass.exception)
  ∧ (∀ (w : World) (subName ccy : String) (a : Rat) (toTr : Bool), a ≠ 0 →
       (transfer_from_sub w subName ccy (some a) none toTr).1 =
         Except.ok TransferRet.nothing) := by
  refine ⟨?_, ?_, ?_, ?_⟩
  · intro resp hc hd
    constructor
    · simp [fetch_trans_id, hc, hd]
    · simp [PyErr.kind]
  · intro w ccy a ha hc hd
    have hfetch : fetch_trans_id (some (w.fundsTransferResp ⟨ccy, a, 18, 6, "0", none⟩)) =
        Except.error (PyErr.brokenResponse "funds_transfer") := by
      simp [fetch_trans_id, hc, hd]
    simp [transfer_from_trading, ha, hfetch]
  · intro w addr ccy chain f a hc hd
    refine ⟨?_, rfl⟩
    simp [withdraw, hc, hd]
  · intro w subName ccy a toTr ha
    simp [transfer_from_sub, legFromFunding, legFromTrading,
      BalanceDict.fundingGet, BalanceDict.tradingGet, fetch_trans_id, truthy, ha]

/-- Witness: `c2_broken_response_amended` instantiated on a response with
success code and empty data, and on the world `c2bWorld`. -/
theorem c2_broken_response_amended_witness :
    (fetch_trans_id (some (⟨"0", "", []⟩ : OkxResponse TransferRecord)) =
       Except.error (PyErr.brokenResponse "funds_transfer")
     ∧ PyErr.kind (PyErr.brokenResponse "funds_transfer") ≠ PyErr.kind (PyErr.exc ""))
    ∧ (transfer_from_trading c2bWorld "USDT" (some 1)).1 =
        Except.error (PyErr.brokenResponse "funds_transfer")
    ∧ ((withdraw c2bWorld "addr1" "USDT" "ERC20" (some 1) (some "0.1")).1 =
         Except.error (PyErr.exc "No withdraw")
       ∧ PyErr.kind (PyErr.exc "No withdraw") = ErrClass.exception)
    ∧ (transfer_from_sub c2bWorld "s1" "USDT" (some 1) none false).1 =
        Except.ok TransferRet.nothing :=
  ⟨c2_broken_response_amended.1 ⟨"0", "", []⟩ rfl rfl,
   c2_broken_response_amended.2.1 c2bWorld "USDT" 1 one_ne_zero rfl rfl,
   c2_broken_response_amended.2.2.1 c2bWorld "addr1" "USDT" "ERC20" "0.1" 1 rfl rfl,
   c2_broken_response_amended.2.2.2 c2bWorld "s1" "USDT" 1 false one_ne_zero⟩

/-- C3 (code bug): with both legs attempted, a funding balance of 50 and a
trading balance of 0, `transfer_from_sub` issues the funding-leg transfer
call but returns `None` instead of the promised single-element id list:
the leg closures never return the `funds_transfer` response, so the id
extractor always receives `None`. -/
theorem c3_transfer_from_sub_returns_none :
    transfer_from_sub c3World "sub1" "USDT" none none false =
      (Except.ok TransferRet.nothing,
       [ApiCall.fundsTransfer ⟨"USDT", 50, 6, 6, "2", some "sub1"⟩]) :=
  rfl

/-- C4: a transfer whose computed amount resolves to zero is a no-op, not
an error: `transfer_from_sub` with amount omitted and zero available on
both ledgers, and `transfer_from_trading` with amount omitted and zero
available, both return `None` and issue no transfer API call. -/
theorem c4_zero_amount_no_op :
    (∀ (w : World) (subName ccy : String) (toTr : Bool),
       snapGetD (get_sub_balance w subName ccy false).funding ccy = 0 →
       (∀ tr, (get_sub_balance w subName ccy false).trading = some tr →
         snapGetD tr ccy = 0) →
       transfer_from_sub w subName ccy none none toTr =
         (Except.ok TransferRet.nothing, []))
  ∧ (∀ (w : World) (ccy : String),
       snapGetD (tradingSnapshot (w.mainTradingData ccy)) ccy = 0 →
       transfer_from_trading w ccy none = (Except.ok none, [])) := by
  constructor
  · intro w subName ccy toTr hf htr
    have hf2 : snapGetD (assetsToSnapshot (w.subFundingData subName ccy)) ccy = 0 := hf
    have ht2 : snapGetD (tradingSnapshot (w.subTradingData subName)) ccy = 0 :=
      htr _ rfl
    simp [transfer_from_sub, get_sub_balance, legFromFunding, legFromTrading,
      BalanceDict.fundingGet, BalanceDict.tradingGet, fetch_trans_id,
      truthy_match_lookup _ _ hf2, truthy_match_lookup _ _ ht2]
  · intro w ccy hz
    cases hmt : w.mainTradingData ccy with
    | nil => simp [transfer_from_trading, hmt]
    | cons t rest =>
      have hz2 : snapGetD (assetsToSnapshot t.details) ccy = 0 := by
        simpa [tradingSnapshot, hmt] using hz
      simp [transfer_from_trading, hmt, hz2]

/-- Witness: `c4_zero_amount_no_op` instantiated on the empty world. -/
theorem c4_zero_amount_no_op_witness :
    transfer_from_sub emptyWorld "s0" "USDT" none none false =
      (Except.ok TransferRet.nothing, [])
    ∧ transfer_from_trading emptyWorld "USDT" none = (Except.ok none, []) :=
  ⟨c4_zero_amount_no_op.1 emptyWorld "s0" "USDT" false rfl
     (fun tr htr => by
       have h2 : tr = [] := by
         simpa [get_sub_balance, tradingSnapshot, emptyWorld,
           assetsToSnapshot, toSnapshot] using htr.symm
       subst h2
       rfl),
   c4_zero_amount_no_op.2 emptyWorld "USDT" rfl⟩

/-- C5: with `amt` and `min_fee` omitted, the withdrawal call submitted to
the exchange carries the full main funding balance for the currency (zero
when absent from the snapshot) and the `minFee` field of the first
deposit- and withdraw-enabled currency record. -/
theorem c5_withdraw_defaults (w : World) (addr ccy chain : String)
    (cur : Currency) (rest : List Currency)
    (h : get_currencies w ccy (some true) (some true) = cur :: rest) :
    (withdraw w addr ccy chain none none).2 =
      [ApiCall.withdrawal ⟨ccy, snapGetD (assetsToSnapshot (w.mainFundingData ccy)) ccy,
        4, addr, cur.minFee.getD "", ccy ++ "-" ++ chain⟩] := by
  unfold withdraw
  rw [h]
  split
  · rename_i f heq
    exact Option.noConfusion heq
  · split
    · rename_i heq
      exact List.noConfusion heq
    · rename_i cur2 tail heq
      injection heq with h1 h2
      subst h1
      split
      · rename_i v heq
        exact Option.noConfusion heq
      · dsimp only
        split
        · rfl
        · split <;> rfl

/-- Witness: `c5_withdraw_defaults` instantiated on `c5World`. -/
theorem c5_withdraw_defaults_witness :
    (withdraw c5World "addr1" "USDT" "ERC20" none none).2 =
      [ApiCall.withdrawal ⟨"USDT",
        snapGetD (assetsToSnapshot (c5World.mainFundingData "USDT")) "USDT",
        4, "addr1", (Currency.mk "USDT" true true (some "0.05")).minFee.getD "",
        "USDT" ++ "-" ++ "ERC20"⟩] :=
  c5_withdraw_defaults c5World "addr1" "USDT" "ERC20"
    ⟨"USDT", true, true, some "0.05"⟩ [] rfl

theorem get_total_balances_ok_shape (w : World) (q : String)
    (usdEq withSub subEnabled onlyF : Bool) (r : TotalBalances)
    (h : get_total_balances w q usdEq withSub subEnabled onlyF = Except.ok r) :
    ∃ (total0 : Snapshot) (subs : Option (List (String × SubBalance))),
      r = totalsFromMain w q usdEq onlyF
        (if usdEq then some (get_assets_prices w) else none) total0 subs := by
  simp only [get_total_balances] at h
  by_cases hws : withSub = true
  · rw [if_pos hws] at h
    cases hall : get_all_subs_balance w subEnabled none q onlyF with
    | error e =>
      rw [hall] at h
      cases h
    | ok rs =>
      rw [hall] at h
      have h2 : Except.ok (totalsFromMain w q usdEq onlyF
          (if usdEq then some (get_assets_prices w) else none) rs.total (some rs.subs)) =
          Except.ok r := h
      cases h2
      exact ⟨rs.total, some rs.subs, rfl⟩
  · rw [if_neg hws] at h
    have h2 : Except.ok (totalsFromMain w q usdEq onlyF
        (if usdEq then some (get_assets_prices w) else none) [] none) =
        Except.ok r := h
    cases h2
    exact ⟨[], none, rfl⟩

theorem totalsFromMain_usd_true_mem (w : World) (q : String) (total0 : Snapshot)
    (subs : Option (List (String × SubBalance))) (p : String × TotalEntry)
    (hp : p ∈ (totalsFromMain w q true true (some (get_assets_prices w)) total0 subs).total) :
    p.2 = TotalEntry.valued p.2.bal (p.2.bal * snapGetD (get_assets_prices w) p.1) := by
  have hp2 : p ∈ valuation true (some (get_assets_prices w))
      (snapAccum total0 (assetsToSnapshot (w.mainFundingData q))) := hp
  simpa using valuation_true_mem _ _ _ hp2

theorem totalsFromMain_usd_trading_mem (w : World) (q : String) (total0 : Snapshot)
    (subs : Option (List (String × SubBalance))) (t : TradingEntry)
    (ts : List TradingEntry) (hmt : w.mainTradingData q = t :: ts)
    (p : String × TotalEntry)
    (hp : p ∈ (totalsFromMain w q true false (some (get_assets_prices w)) total0 subs).total) :
    p.2 = TotalEntry.valued p.2.bal (p.2.bal * snapGetD (get_assets_prices w) p.1) := by
  unfold totalsFromMain at hp
  rw [hmt] at hp
  have hp2 : p ∈ valuation true (some (get_assets_prices w))
      (snapAccum (snapAccum total0 (assetsToSnapshot (w.mainFundingData q)))
        (assetsToSnapshot t.details)) := hp
  simpa using valuation_true_mem _ _ _ hp2

theorem totalsFromMain_raw_mem (w : World) (q : String) (onlyF : Bool)
    (prices : Option Snapshot) (total0 : Snapshot)
    (subs : Option (List (String × SubBalance))) (p : String × TotalEntry)
    (hp : p ∈ (totalsFromMain w q false onlyF prices total0 subs).total) :
    p.2 = TotalEntry.raw p.2.bal := by
  unfold totalsFromMain at hp
  cases onlyF with
  | true =>
    have hp2 : p ∈ valuation false prices
        (snapAccum total0 (assetsToSnapshot (w.mainFundingData q))) := hp
    exact valuation_false_mem _ _ _ hp2
  | false =>
    cases hmt : w.mainTradingData q with
    | nil =>
      rw [hmt] at hp
      have hp2 : p ∈ rawTotals
          (snapAccum total0 (assetsToSnapshot (w.mainFundingData q))) := hp
      exact rawTotals_mem _ _ hp2
    | cons t ts =>
      rw [hmt] at hp
      have hp2 : p ∈ valuation false prices
          (snapAccum (snapAccum total0 (assetsToSnapshot (w.mainFundingData q)))
            (assetsToSnapshot t.details)) := hp
      exact valuation_false_mem _ _ _ hp2

/-- C6 counterexample: with valuation requested (`usd_eq` true) but the
main trading fetch returning an empty data array, `get_total_balances`
returns early and the total entry stays a bare float, not the
balance-and-usd structure the claim promises for every entry. -/
theorem c6_valuation_skipped_counterexample :
    get_total_balances c6World "" true false true false =
      Except.ok ⟨[("BTC", TotalEntry.raw 1)], none, ⟨[("BTC", 1)], some []⟩⟩
    ∧ TotalEntry.raw 1 ≠
        TotalEntry.valued 1 (1 * snapGetD (get_assets_prices c6World) "BTC") :=
  ⟨rfl, fun hne => TotalEntry.noConfusion hne⟩

/-- C6 amended: when valuation is requested, every total entry is replaced
by a structure carrying the raw balance and balance times the fetched
price (zero for an unpriced asset) — except on the early-return path where
`only_funding` is false and the main trading fetch returns an empty data
array, in which case entries remain raw sums; without valuation every
entry remains a raw sum. -/
theorem c6_total_entries_amended :
    (∀ (w : World) (q : String) (withSub subEnabled : Bool) (r : TotalBalances),
       get_total_balances w q true withSub subEnabled true = Except.ok r →
       ∀ p ∈ r.total, p.2 = TotalEntry.valued p.2.bal
         (p.2.bal * snapGetD (get_assets_prices w) p.1))
  ∧ (∀ (w : World) (q : String) (withSub subEnabled : Bool) (r : TotalBalances)
       (t : TradingEntry) (ts : List TradingEntry),
       w.mainTradingData q = t :: ts →
       get_total_balances w q true withSub subEnabled false = Except.ok r →
       ∀ p ∈ r.total, p.2 = TotalEntry.valued p.2.bal
         (p.2.bal * snapGetD (get_assets_prices w) p.1))
  ∧ (∀ (w : World) (q : String) (withSub subEnabled onlyF : Bool) (r : TotalBalances),
       get_total_balances w q false withSub subEnabled onlyF = Except.ok r →
       ∀ p ∈ r.total, p.2 = TotalEntry.raw p.2.bal) := by
  refine ⟨?_, ?_, ?_⟩
  · intro w q withSub subEnabled r h p hp
    obtain ⟨t0, sb, rfl⟩ := get_total_balances_ok_shape w q true withSub subEnabled true r h
    exact totalsFromMain_usd_true_mem w q t0 sb p hp
  · intro w q withSub subEnabled r t ts hmt h p hp
    obtain ⟨t0, sb, rfl⟩ := get_total_balances_ok_shape w q true withSub subEnabled false r h
    exact totalsFromMain_usd_trading_mem w q t0 sb t ts hmt p hp
  · intro w q withSub subEnabled onlyF r h p hp
    obtain ⟨t0, sb, rfl⟩ := get_total_balances_ok_shape w q false withSub subEnabled onlyF r h
    exact totalsFromMain_raw_mem w q onlyF _ t0 sb p hp

/-- Witness: `c6_total_entries_amended` instantiated on `c6bWorld`. -/
theorem c6_total_entries_amended_witness :
    c6bEntry.2 = TotalEntry.valued c6bEntry.2.bal
      (c6bEntry.2.bal * snapGetD (get_assets_prices c6bWorld) c6bEntry.1) :=
  c6_total_entries_amended.1 c6bWorld "" false true c6bResult rfl c6bEntry
    (List.mem_singleton.mpr rfl)

theorem attemptsOf_append (l1 l2 : List WdEvent) :
    attemptsOf (l1 ++ l2) = attemptsOf l1 ++ attemptsOf l2 := by
  simp [attemptsOf, List.filterMap_append]

theorem attemptsOf_step (outcome : String → Except PyErr String) (delayOf : String → Int)
    (wlt : String) : attemptsOf (withdrawStep outcome delayOf wlt) = [wlt] := by
  cases ho : outcome wlt <;> simp [withdrawStep, attemptsOf, ho]

/-- C7: every address in the batch loop is attempted regardless of other
addresses' failures; a failing address is logged (a failed-skipped event
appears for it) and skipped; and the inter-request sleep appears exactly
immediately after each successful submission. -/
theorem c7_batch_loop_failures_skipped (outcome : String → Except PyErr String)
    (delayOf : String → Int) (addrs : List String) :
    attemptsOf (withdrawLoop outcome delayOf addrs) = addrs
    ∧ delayDiscipline (withdrawLoop outcome delayOf addrs) = true
    ∧ ∀ wlt ∈ addrs, ∀ e, outcome wlt = Except.error e →
        WdEvent.failedSkipped wlt e.message ∈ withdrawLoop outcome delayOf addrs := by
  induction addrs with
  | nil =>
    refine ⟨rfl, rfl, ?_⟩
    intro wlt hw
    cases hw
  | cons a rest ih =>
    obtain ⟨ih1, ih2, ih3⟩ := ih
    refine ⟨?_, ?_, ?_⟩
    · show attemptsOf (withdrawStep outcome delayOf a ++ withdrawLoop outcome delayOf rest) =
        a :: rest
      rw [attemptsOf_append, attemptsOf_step, ih1]
      rfl
    · show delayDiscipline
        (withdrawStep outcome delayOf a ++ withdrawLoop outcome delayOf rest) = true
      cases ho : outcome a <;>
        simp [withdrawStep, ho, delayDiscipline, ih2]
    · intro wlt hw e he
      rcases List.mem_cons.1 hw with rfl | hw2
      · show WdEvent.failedSkipped wlt e.message ∈
          withdrawStep outcome delayOf wlt ++ withdrawLoop outcome delayOf rest
        simp [withdrawStep, he]
      · show WdEvent.failedSkipped wlt e.message ∈
          withdrawStep outcome delayOf a ++ withdrawLoop outcome delayOf rest
        exact List.mem_append_right _ (ih3 wlt hw2 e he)

/-- Witness: `c7_batch_loop_failures_skipped` instantiated on a two-address
batch whose first address fails. -/
theorem c7_batch_loop_failures_skipped_witness :
    WdEvent.failedSkipped "w1" (PyErr.exc "boom").message ∈
      withdrawLoop c7Outcome c7Delay ["w1", "w2"] :=
  (c7_batch_loop_failures_skipped c7Outcome c7Delay ["w1", "w2"]).2.2 "w1"
    (List.mem_cons_self "w1" ["w2"]) (PyErr.exc "boom") rfl

/-- C8: randomized amount and delay draws always fall within the
configured inclusive range, including the degenerate scalar configuration
that `read_config` normalises to the two-element range `[x, x]`. -/
theorem c8_draws_within_range :
    (∀ (raw : RawRange Rat) (a b r : Rat), normalizeAmounts raw = [a, b] →
       a ≤ b → 0 ≤ r → r ≤ 1 →
       a ≤ OkxConfig.amount ⟨normalizeAmounts raw, []⟩ r
       ∧ OkxConfig.amount ⟨normalizeAmounts raw, []⟩ r ≤ b)
  ∧ (∀ (raw : RawRange Int) (a b : Int) (seed : Nat), normalizeDelays raw = [a, b] →
       a ≤ b →
       a ≤ OkxConfig.delay ⟨[], normalizeDelays raw⟩ seed
       ∧ OkxConfig.delay ⟨[], normalizeDelays raw⟩ seed ≤ b) := by
  constructor
  · intro raw a b r hn hab hr0 hr1
    rw [hn]
    have hamount : OkxConfig.amount ⟨[a, b], []⟩ r = a + (b - a) * r := rfl
    rw [hamount]
    constructor
    · nlinarith [mul_nonneg (sub_nonneg.mpr hab) hr0]
    · nlinarith [mul_le_mul_of_nonneg_left hr1 (sub_nonneg.mpr hab)]
  · intro raw a b seed hn hab
    rw [hn]
    have hdelay : OkxConfig.delay ⟨[], [a, b]⟩ seed =
        a + (seed : Int) % (b - a + 1) := rfl
    rw [hdelay]
    have h1 : 0 ≤ (seed : Int) % (b - a + 1) := Int.emod_nonneg _ (by omega)
    have h2 : (seed : Int) % (b - a + 1) < b - a + 1 :=
      Int.emod_lt_of_pos _ (by omega)
    omega

/-- Witness: `c8_draws_within_range` instantiated on scalar configurations
and the seed 0. -/
theorem c8_draws_within_range_witness :
    ((5 : Rat) ≤ OkxConfig.amount ⟨normalizeAmounts (RawRange.scalar 5), []⟩ 0
     ∧ OkxConfig.amount ⟨normalizeAmounts (RawRange.scalar 5), []⟩ 0 ≤ 5)
    ∧ ((7 : Int) ≤ OkxConfig.delay ⟨[], normalizeDelays (RawRange.scalar 7)⟩ 0
       ∧ OkxConfig.delay ⟨[], normalizeDelays (RawRange.scalar 7)⟩ 0 ≤ 7) :=
  ⟨c8_draws_within_range.1 (RawRange.scalar 5) 5 5 0 rfl (le_refl 5) (le_refl 0)
     zero_le_one,
   c8_draws_within_range.2 (RawRange.scalar 7) 7 7 0 rfl (le_refl 7)⟩

/-- C9 counterexample: a 64-character line of `z` characters is accepted
by `load_private_keys` although it contains no hex digits, refuting the
claim that acceptance requires 64 hex characters after stripping an
optional `0x` prefix. -/
theorem c9_hex_not_checked_counterexample :
    zKey ∈ load_private_keys [zKey] ∧ specPkAccept zKey = false := by
  constructor
  · decide
  · decide

/-- C9 amended: a private-key line is accepted exactly when, after
stripping whitespace and removing every occurrence of the substring `0x`,
exactly 64 characters remain — hex-ness is not checked and `0x` is removed
anywhere in the line, not only as a prefix; an address line is accepted
exactly when the stripped line is 42 characters long. -/
theorem c9_load_accept_amended :
    (∀ (lines : List String) (key : String),
       key ∈ load_private_keys lines ↔
         ∃ l, l ∈ lines ∧ removeAll0x (pyStrip l) = key ∧ key.length = 64)
  ∧ (∀ (lines : List String) (addrLine : String),
       addrLine ∈ load_addresses lines ↔
         ∃ l, l ∈ lines ∧ pyStrip l = addrLine ∧ addrLine.length = 42) := by
  constructor
  · intro lines key
    simp only [load_private_keys, List.mem_filter, List.mem_map, beq_iff_eq]
    constructor
    · rintro ⟨⟨l, hl, h1⟩, h2⟩
      exact ⟨l, hl, h1, h2⟩
    · rintro ⟨l, hl, h1, h2⟩
      exact ⟨⟨l, hl, h1⟩, h2⟩
  · intro lines addrLine
    simp only [load_addresses, List.mem_filter, List.mem_map, beq_iff_eq]
    constructor
    · rintro ⟨⟨l, hl, h1⟩, h2⟩
      exact ⟨l, hl, h1, h2⟩
    · rintro ⟨l, hl, h1, h2⟩
      exact ⟨⟨l, hl, h1⟩, h2⟩

/-- C10: with `min_fee` omitted and no deposit- and withdraw-enabled
currency record matching the code, `withdraw` fails with the
list-index-out-of-range error before submitting any withdrawal request. -/
theorem c10_withdraw_index_error (w : World) (addr ccy chain : String)
    (amt : Option Rat)
    (h : get_currencies w ccy (some true) (some true) = []) :
    withdraw w addr ccy chain amt none = (Except.error PyErr.indexError, []) := by
  unfold withdraw
  rw [h]

/-- Witness: `c10_withdraw_index_error` on a world with no currencies,
showing the guarded branch is reachable. -/
theorem c10_withdraw_index_error_witness :
    withdraw emptyWorld "addr1" "USDT" "ERC20" none none =
      (Except.error PyErr.indexError, []) :=
  c10_withdraw_index_error emptyWorld "addr1" "USDT" "ERC20" none rfl
